import Mathlib

/-!
Verification of the aggregate-lowering and map-lowering core of a small
ahead-of-time compiler backend.

The definitions below are a shallow embedding of the Go source:
* `compiler/calls.go` — aggregate flattening, formal-parameter expansion and
  collapse, runtime-call emission;
* the map-intrinsics file — map key classification and the lookup / update /
  delete lowering paths, FNV top-hash;
* `builder/error.go` — error aggregation (`MultiError`).

A Go `panic` is modelled as `Option.none` / absence of a result; LLVM values
are modelled as structural trees (an elementary leaf carries an opaque type id
and payload; an aggregate is a list of field values), which is the structural
reading of SSA values that the spec's round-trip and count-agreement laws are
about.
-/

set_option maxHeartbeats 1000000

namespace TinyGo

/-- An LLVM type as seen by the lowering code: either an elementary
(non-aggregate) type, identified by an opaque id, or a struct with an ordered
list of field types.  Mirrors the `TypeKind` dispatch in `calls.go`, which only
distinguishes `StructTypeKind` from everything else. -/
inductive LLVMType where
  | elementary (id : Nat)
  | structT (fields : List LLVMType)

/-- The `i8*` type used for the implicit context / coroutine-handle
parameters (`c.i8ptrType`). -/
def i8ptrType : LLVMType := LLVMType.elementary 0

/-- An LLVM value in structural form.  `elem` is a value of an elementary
type (opaque type id plus opaque payload); `undefPtr` models
`llvm.Undef(i8ptrType)`; `nullPtr` models `llvm.ConstPointerNull(i8ptrType)`;
`structV` is an aggregate whose fields are the values extractable with
`CreateExtractValue`. -/
inductive LLVMValue where
  | elem (tyId : Nat) (data : Nat)
  | undefPtr
  | nullPtr
  | structV (fields : List LLVMValue)

mutual
/-- `v.Type()` of a structural LLVM value. -/
def typeOf : LLVMValue → LLVMType
  | .elem tyId _ => .elementary tyId
  | .undefPtr => i8ptrType
  | .nullPtr => i8ptrType
  | .structV fields => .structT (typeOfList fields)

/-- Types of a list of values, field by field. -/
def typeOfList : List LLVMValue → List LLVMType
  | [] => []
  | v :: vs => typeOf v :: typeOfList vs
end

/-- The maximum number of arguments that can be expanded from a single struct
(`MaxFieldsPerParam` in `calls.go`). -/
def MaxFieldsPerParam : Nat := 3

mutual
/-- `flattenAggregateType` from `calls.go`: flatten a struct type to the list
of its elementary leaf types, in declaration order; a non-struct type maps to
the one-element list holding itself. -/
def flattenAggregateType : LLVMType → List LLVMType
  | .structT fields => flattenAggregateTypeList fields
  | t => [t]

/-- The `for _, subfield := range t.StructElementTypes()` loop inside
`flattenAggregateType`, appending the flattening of each field. -/
def flattenAggregateTypeList : List LLVMType → List LLVMType
  | [] => []
  | t :: ts => flattenAggregateType t ++ flattenAggregateTypeList ts
end

mutual
/-- `flattenAggregate` from `calls.go`: the value equivalent of
`flattenAggregateType`; extracts each field (`CreateExtractValue`) and
concatenates the flattenings.  The source dispatches on
`v.Type().TypeKind()`; in this model a value has struct kind exactly when it
is a `structV`, so the dispatch is on the constructor. -/
def flattenAggregate (v : LLVMValue) : List LLVMValue :=
  match v with
  | .structV fields => flattenAggregateList fields
  | v => [v]

/-- The field loop inside `flattenAggregate`. -/
def flattenAggregateList : List LLVMValue → List LLVMValue
  | [] => []
  | v :: vs => flattenAggregate v ++ flattenAggregateList vs
end

/-- `expandFormalParamType` from `calls.go`: a struct type whose flattening
stays within `MaxFieldsPerParam` is replaced by the list of its flattened
field types; any other type is passed through unchanged. -/
def expandFormalParamType (t : LLVMType) : List LLVMType :=
  match t with
  | .structT _ =>
      let fields := flattenAggregateType t
      if fields.length ≤ MaxFieldsPerParam then
        fields
      else
        [t]
  | _ => [t]

/-- `(*builder).expandFormalParam` from `calls.go` (identical to the
`Compiler` receiver version).  A struct value within the flattening bound is
split into its flattened fields after the consistency check against
`flattenAggregateType` (whose failure — a Go `panic` — is modelled as `none`);
an over-bound struct or a non-struct value is passed through as a one-element
list. -/
def expandFormalParam (v : LLVMValue) : Option (List LLVMValue) :=
  match typeOf v with
  | .structT _ =>
      let fieldTypes := flattenAggregateType (typeOf v)
      if fieldTypes.length ≤ MaxFieldsPerParam then
        let fields := flattenAggregate v
        if fields.length ≠ fieldTypes.length then
          none
        else
          some fields
      else
        some [v]
  | _ => some [v]

mutual
/-- `llvm.ConstNull` restricted to the types of this model: the zero value of
an elementary type, or the struct of the null values of the field types. -/
def constNull : LLVMType → LLVMValue
  | .elementary id => .elem id 0
  | .structT fields => .structV (constNullList fields)

/-- `constNull` applied to each type in a list. -/
def constNullList : List LLVMType → List LLVMValue
  | [] => []
  | t :: ts => constNull t :: constNullList ts
end

/-- `CreateInsertValue` on a struct value: replace field `i`. -/
def createInsertValue (agg : LLVMValue) (x : LLVMValue) (i : Nat) : LLVMValue :=
  match agg with
  | .structV fields => .structV (fields.set i x)
  | v => v

mutual
/-- `collapseFormalParamInternal` from `calls.go`: rebuild a value of type `t`
from the front of `fields`, returning the rebuilt value and the unconsumed
remainder.  A struct type within the flattening bound is rebuilt field by
field starting from `ConstNull`; an over-bound struct or a non-struct type
consumes exactly one value.  The `fields[0]` panic on an exhausted list is
modelled as `none`. -/
def collapseFormalParamInternal : LLVMType → List LLVMValue → Option (LLVMValue × List LLVMValue)
  | .structT ts, fields =>
      if (flattenAggregateType (.structT ts)).length ≤ MaxFieldsPerParam then
        collapseStructFields ts 0 (constNull (.structT ts)) fields
      else
        match fields with
        | [] => none
        | f :: rest => some (f, rest)
  | _, fields =>
      match fields with
      | [] => none
      | f :: rest => some (f, rest)

/-- The `for i, subtyp := range t.StructElementTypes()` loop inside
`collapseFormalParamInternal`: collapse each field type against the running
remainder and insert the result at position `i`. -/
def collapseStructFields : List LLVMType → Nat → LLVMValue → List LLVMValue → Option (LLVMValue × List LLVMValue)
  | [], _, value, fields => some (value, fields)
  | subtyp :: ts, i, value, fields =>
      match collapseFormalParamInternal subtyp fields with
      | none => none
      | some (structField, remaining) =>
          collapseStructFields ts (i + 1) (createInsertValue value structField i) remaining
end

/-- `collapseFormalParam` from `calls.go`: collapse a full field list back to
one value; leftover fields are a panic (`none`). -/
def collapseFormalParam (t : LLVMType) (fields : List LLVMValue) : Option LLVMValue :=
  match collapseFormalParamInternal t fields with
  | none => none
  | some (param, remaining) =>
      if remaining.length ≠ 0 then
        none
      else
        some param

/-! ## Field offsets (`flattenAggregateTypeOffsets`)

`c.targetData.ElementOffset(t, fieldIndex)` is the external layout oracle; it
is modelled as an arbitrary function `td` from a struct type and a field index
to the field's byte offset. -/

mutual
/-- `flattenAggregateTypeOffsets` from `calls.go`: the byte offset of each
flattened leaf field from the start of the non-flattened object, adding the
enclosing field's own offset (`ElementOffset`) to every sub-offset. -/
def flattenAggregateTypeOffsets (td : LLVMType → Nat → Nat) : LLVMType → List Nat
  | .structT fields => flattenAggregateTypeOffsetsFields td (.structT fields) fields 0
  | _ => [0]

/-- The `for fieldIndex, field := range t.StructElementTypes()` loop inside
`flattenAggregateTypeOffsets`. -/
def flattenAggregateTypeOffsetsFields (td : LLVMType → Nat → Nat)
    (parent : LLVMType) : List LLVMType → Nat → List Nat
  | [], _ => []
  | field :: fs, fieldIndex =>
      ((flattenAggregateTypeOffsets td field).map
          (fun suboffset => suboffset + td parent fieldIndex)) ++
        flattenAggregateTypeOffsetsFields td parent fs (fieldIndex + 1)
end

mutual
/-- The field-index paths of the flattened leaves of a type, in flattening
order: an elementary type is one leaf with the empty path; each leaf of field
`i` of a struct is reached by prepending `i`. -/
def leafPaths : LLVMType → List (List Nat)
  | .structT fields => leafPathsFields fields 0
  | _ => [[]]

/-- The per-field loop of `leafPaths`. -/
def leafPathsFields : List LLVMType → Nat → List (List Nat)
  | [], _ => []
  | field :: fs, i =>
      ((leafPaths field).map (fun p => i :: p)) ++ leafPathsFields fs (i + 1)
end

/-- The byte offset a leaf reached by `path` should have: the sum, over every
enclosing aggregate ancestor, of the byte offset (per the layout oracle `td`)
of the field stepped into. -/
def pathOffset (td : LLVMType → Nat → Nat) : LLVMType → List Nat → Nat
  | _, [] => 0
  | t, i :: p =>
      match t with
      | .structT fields =>
          td (.structT fields) i
            + pathOffset td (fields.getD i (.elementary 0)) p
      | _ => 0

/-! ## Map key classification and the map-operation lowerer -/

/-- The information class of a `go/types` basic type, as far as the map
lowering inspects it (`Info() & (IsBoolean | IsInteger | IsString)`); the
flags are mutually exclusive on Go basic types. -/
inductive BasicInfo where
  | isBoolean
  | isInteger
  | isString
  | otherInfo
deriving DecidableEq

/-- A `go/types` type as inspected by the map lowering: basic types with
their info class, pointers, structs, arrays, named types (carrying the name
printed by `String()` and the underlying type), interface types, and a
constructor for every other type (slices, maps, channels, functions, …). -/
inductive GoType where
  | basic (info : BasicInfo)
  | pointer
  | structT (fields : List GoType)
  | array (elem : GoType)
  | named (name : String) (underlyingT : GoType)
  | interfaceT
  | otherT

/-- `Type.Underlying()`: a named type resolves to its (never-named)
underlying type; every other type is its own underlying type. -/
def GoType.underlying : GoType → GoType
  | .named _ u => u.underlying
  | t => t

theorem GoType.sizeOf_underlying_le : ∀ t : GoType, sizeOf t.underlying ≤ sizeOf t
  | .basic _ => le_of_eq rfl
  | .pointer => le_of_eq rfl
  | .structT _ => le_of_eq rfl
  | .array _ => le_of_eq rfl
  | .interfaceT => le_of_eq rfl
  | .otherT => le_of_eq rfl
  | .named n u => by
      have h := GoType.sizeOf_underlying_le u
      have : GoType.underlying (.named n u) = u.underlying := rfl
      rw [this]
      simp only [GoType.named.sizeOf_spec]
      omega

mutual
/-- `hashmapIsBinaryKey` from the map-intrinsics file: true when the key type
can be compared with `runtime.memequal` — booleans and integers among the
basic types, pointers, structs all of whose field types (after `Underlying()`)
are binary keys, and arrays of binary element type; anything else (strings,
interfaces, slices, …) is not. -/
def hashmapIsBinaryKey : GoType → Bool
  | .basic info => info == .isBoolean || info == .isInteger
  | .pointer => true
  | .structT fields => hashmapIsBinaryKeyFields fields
  | .array elem => hashmapIsBinaryKey elem
  | .named _ u => hashmapIsBinaryKey u.underlying
  | _ => false
termination_by t => sizeOf t
decreasing_by
  · simp only [GoType.structT.sizeOf_spec]; omega
  · simp only [GoType.array.sizeOf_spec]; omega
  · have h := GoType.sizeOf_underlying_le u
    simp only [GoType.named.sizeOf_spec]
    omega

/-- The `for i := 0; i < keyType.NumFields(); i++` loop inside
`hashmapIsBinaryKey`. -/
def hashmapIsBinaryKeyFields : List GoType → Bool
  | [] => true
  | f :: fs => hashmapIsBinaryKey f.underlying && hashmapIsBinaryKeyFields fs
termination_by fs => sizeOf fs
decreasing_by
  · have h := GoType.sizeOf_underlying_le f
    simp only [List.cons.sizeOf_spec]
    omega
  · simp only [List.cons.sizeOf_spec]; omega
end

/-- The `t, ok := keyType.(*types.Basic); ok && t.Info()&types.IsString != 0`
test shared by the three map operations. -/
def isStringBasicKey : GoType → Bool
  | .basic info => info == .isString
  | _ => false

mutual
/-- `keyType.String()` of `go/types`, as used in the unsupported-key
diagnostic. -/
def GoType.typeString : GoType → String
  | .basic .isBoolean => "bool"
  | .basic .isInteger => "int"
  | .basic .isString => "string"
  | .basic .otherInfo => "float64"
  | .pointer => "*T"
  | .structT fields => "struct \x7b " ++ GoType.typeStringFields fields ++ " \x7d"
  | .array elem => "[4]" ++ elem.typeString
  | .named name _ => name
  | .interfaceT => "interface \x7b\x7d"
  | .otherT => "T"

/-- Field list rendering inside `GoType.typeString`. -/
def GoType.typeStringFields : List GoType → String
  | [] => ""
  | [f] => f.typeString
  | f :: fs => f.typeString ++ "; " ++ GoType.typeStringFields fs
end

/-- The diagnostic text produced for an unsupported map key type, shared
verbatim by `createMapLookup`, `createMapUpdate` and `createMapDelete`. -/
def hashmapKeyErrorMessage (keyType : GoType) : String :=
  "only strings, bools, ints, pointers or structs of bools/ints are supported as map keys, but got: "
    ++ keyType.typeString

/-- A diagnostic as produced by `(*builder).makeError` / `(*builder).addError`:
a source position paired with a message. -/
structure Diag where
  pos : Nat
  msg : String
deriving DecidableEq

/-- `createMapLookup`: dispatch on the key type — note the source inspects
`keyType` directly, without first taking `Underlying()`.  A string key calls
`runtime.hashmapStringGet`, a binary-comparable key calls
`runtime.hashmapBinaryGet`, and any other key type returns an error
(`makeError`) carrying the unsupported-key diagnostic for `keyType`.  The
value payload is the list of runtime functions called. -/
def createMapLookup (keyType : GoType) (pos : Nat) : Except Diag (List String) :=
  if isStringBasicKey keyType then
    Except.ok ["hashmapStringGet"]
  else if hashmapIsBinaryKey keyType then
    Except.ok ["hashmapBinaryGet"]
  else
    Except.error ⟨pos, hashmapKeyErrorMessage keyType⟩

/-- `createMapUpdate`: first replaces `keyType` by `keyType.Underlying()`,
then dispatches — a string key calls `runtime.hashmapStringSet`, a binary key
calls `runtime.hashmapBinarySet`, and any other key records the
unsupported-key diagnostic through the error aggregator (`addError`) and
returns normally.  The result is the pair (runtime functions called,
diagnostics recorded); the function always returns. -/
def createMapUpdate (keyType : GoType) (pos : Nat) : List String × List Diag :=
  let keyTypeU := keyType.underlying
  if isStringBasicKey keyTypeU then
    (["hashmapStringSet"], [])
  else if hashmapIsBinaryKey keyTypeU then
    (["hashmapBinarySet"], [])
  else
    ([], [⟨pos, hashmapKeyErrorMessage keyTypeU⟩])

/-- `createMapDelete`: first replaces `keyType` by `keyType.Underlying()`,
then dispatches — a string key calls `runtime.hashmapStringDelete`, a binary
key calls `runtime.hashmapBinaryDelete`, and any other key immediately
returns the unsupported-key diagnostic as an error value (`makeError`). -/
def createMapDelete (keyType : GoType) (pos : Nat) : Except Diag (List String) :=
  let keyTypeU := keyType.underlying
  if isStringBasicKey keyTypeU then
    Except.ok ["hashmapStringDelete"]
  else if hashmapIsBinaryKey keyTypeU then
    Except.ok ["hashmapBinaryDelete"]
  else
    Except.error ⟨pos, hashmapKeyErrorMessage keyTypeU⟩

/-- The three lowering strategies of the spec's `KeyClass`. -/
inductive KeyClass where
  | stringKey
  | binaryKey
  | unsupportedKey
deriving DecidableEq

/-- The key class an operation resolves for the type it dispatches on: the
`if` chain shared by the three map operations. -/
def mapKeyClass (t : GoType) : KeyClass :=
  if isStringBasicKey t then .stringKey
  else if hashmapIsBinaryKey t then .binaryKey
  else .unsupportedKey

/-- The class `createMapLookup` dispatches on: the raw key type. -/
def lookupKeyClass (keyType : GoType) : KeyClass := mapKeyClass keyType

/-- The class `createMapUpdate` dispatches on: the underlying key type. -/
def updateKeyClass (keyType : GoType) : KeyClass :=
  mapKeyClass keyType.underlying

/-- The class `createMapDelete` dispatches on: the underlying key type. -/
def deleteKeyClass (keyType : GoType) : KeyClass :=
  mapKeyClass keyType.underlying

mutual
/-- A type containing an interface (dynamic-value) component at any nesting
depth reachable through struct fields, array elements or named underlying
types.  This is the claim-side notion of a "type containing an
interface/dynamic-value field". -/
def containsDynamic : GoType → Bool
  | .interfaceT => true
  | .structT fields => containsDynamicFields fields
  | .array elem => containsDynamic elem
  | .named _ u => containsDynamic u
  | _ => false

/-- `containsDynamic` over a struct field list. -/
def containsDynamicFields : List GoType → Bool
  | [] => false
  | f :: fs => containsDynamic f || containsDynamicFields fs
end

mutual
/-- The claim-side binary-comparability rules, written from the claim's
words and independent of `hashmapIsBinaryKey`: booleans, integers and
pointers are binary-comparable; a struct is binary-comparable iff every
field is, recursively; an array iff its element type is; a named type is
read through its underlying structure; every other type (strings, floats,
interfaces, slices, maps, …) is not binary-comparable. -/
def specBinaryComparable : GoType → Bool
  | .basic .isBoolean => true
  | .basic .isInteger => true
  | .pointer => true
  | .structT fields => specBinaryComparableFields fields
  | .array elem => specBinaryComparable elem
  | .named _ u => specBinaryComparable u
  | _ => false

/-- `specBinaryComparable` over a struct field list. -/
def specBinaryComparableFields : List GoType → Bool
  | [] => true
  | f :: fs => specBinaryComparable f && specBinaryComparableFields fs
end

/-! ## Runtime call emission (`createRuntimeCall`) -/

/-- The state the two `createRuntimeCall` variants consult about a runtime
function name: whether `runtime` has a member of that name, whether its
compiled LLVM function is nil, whether it is exported
(`//go:export` etc.), and whether `mod.NamedFunction("runtime."+name)` is
nil. -/
structure RuntimeEnv where
  hasMember : String → Bool
  llvmFnIsNil : String → Bool
  isExported : String → Bool
  namedFunctionIsNil : String → Bool

namespace Compiler

/-- `(*Compiler).createRuntimeCall` from `calls.go`, observed at the argument
list it hands to `createCall`: a missing member or a nil LLVM function is a
panic (`none`); for a non-exported runtime function the implicit unused
context parameter (`llvm.Undef(i8ptrType)`) and the null coroutine handle
(`llvm.ConstPointerNull(i8ptrType)`) are appended after the caller's
arguments; for an exported function the arguments are passed unchanged. -/
def createRuntimeCallArgs (env : RuntimeEnv) (fnName : String)
    (args : List LLVMValue) : Option (List LLVMValue) :=
  if ¬ env.hasMember fnName then
    none
  else if env.llvmFnIsNil fnName then
    none
  else if ¬ env.isExported fnName then
    some ((args ++ [LLVMValue.undefPtr]) ++ [LLVMValue.nullPtr])
  else
    some args

end Compiler

namespace builder

/-- `(*builder).createRuntimeCall` from `calls.go`, observed at the argument
list it hands to `createCall`: a nil named function is a panic (`none`);
otherwise the implicit unused context parameter and the null coroutine handle
are always appended after the caller's arguments. -/
def createRuntimeCallArgs (env : RuntimeEnv) (fnName : String)
    (args : List LLVMValue) : Option (List LLVMValue) :=
  if env.namedFunctionIsNil fnName then
    none
  else
    some ((args ++ [LLVMValue.undefPtr]) ++ [LLVMValue.nullPtr])

end builder

/-- A runtime environment in which every runtime function exists, is
compiled, and is exported. -/
def exportedEnv : RuntimeEnv :=
  ⟨fun _ => true, fun _ => false, fun _ => true, fun _ => false⟩

/-! ## Error aggregation (`builder/error.go`) -/

/-- A Go `error` value as the builder package handles it: either an ordinary
error exposing a message, or a `MultiError` wrapping an ordered list of
errors. -/
inductive GoError where
  | simple (msg : String)
  | multi (errs : List GoError)

/-- `Error()`: an ordinary error returns its message; `(*MultiError).Error()`
returns the first wrapped error's message (`e.Errs[0].Error()`), and panics —
modelled as `none` — when the list is empty. -/
def GoError.message : GoError → Option String
  | .simple msg => some msg
  | .multi [] => none
  | .multi (e :: _) => e.message

/-- `newMultiError` from `builder/error.go`: wraps the list in a `MultiError`
when it holds more than one error, returns the single error directly when it
holds exactly one, and panics — modelled as `none` — on an empty list
(`errs[0]` out of range). -/
def newMultiError (errs : List GoError) : Option GoError :=
  if errs.length > 1 then
    some (GoError.multi errs)
  else
    errs[0]?

/-! ## Map hashing (`hashmapTopHash`) -/

/-- `hashmapTopHash` from the map-intrinsics file: the topmost 8 bits of a
32-bit hash (`uint8(hash >> 24)`), bumped from `0` to `1` because `0` marks an
empty bucket slot.  `uint32` and `uint8` arithmetic are modelled on `Nat`
with explicit reductions modulo `2^32` and `2^8`. -/
def hashmapTopHash (hash : Nat) : Nat :=
  let tophash := ((hash % 2 ^ 32) >>> 24) % 2 ^ 8
  if tophash < 1 then
    tophash + 1
  else
    tophash

/-- Structural induction over `LLVMValue` with a membership hypothesis for the
fields of a struct value. -/
theorem LLVMValue.recMemValue {P : LLVMValue → Prop}
    (helem : ∀ tyId data, P (.elem tyId data))
    (hundef : P .undefPtr)
    (hnull : P .nullPtr)
    (hstruct : ∀ fields, (∀ v ∈ fields, P v) → P (.structV fields)) :
    ∀ v, P v
  | .elem tyId data => helem tyId data
  | .undefPtr => hundef
  | .nullPtr => hnull
  | .structV fields =>
      hstruct fields (fun v hv => LLVMValue.recMemValue helem hundef hnull hstruct v)
termination_by v => sizeOf v
decreasing_by
  have h1 : sizeOf v < sizeOf fields := List.sizeOf_lt_of_mem hv
  simp only [LLVMValue.structV.sizeOf_spec]
  omega

/-- Structural induction over `LLVMType` with a membership hypothesis for the
fields of a struct type. -/
theorem LLVMType.recMemType {P : LLVMType → Prop}
    (helem : ∀ id, P (.elementary id))
    (hstruct : ∀ fields, (∀ t ∈ fields, P t) → P (.structT fields)) :
    ∀ t, P t
  | .elementary id => helem id
  | .structT fields =>
      hstruct fields (fun t ht => LLVMType.recMemType helem hstruct t)
termination_by t => sizeOf t
decreasing_by
  have h1 : sizeOf t < sizeOf fields := List.sizeOf_lt_of_mem ht
  simp only [LLVMType.structT.sizeOf_spec]
  omega

theorem typeOfList_length (vs : List LLVMValue) :
    (typeOfList vs).length = vs.length := by
  induction vs with
  | nil => rfl
  | cons v vs ih => simp [typeOfList, ih]

theorem constNullList_length (ts : List LLVMType) :
    (constNullList ts).length = ts.length := by
  induction ts with
  | nil => rfl
  | cons t ts ih => simp [constNullList, ih]

theorem flattenAggregateList_length_aux (fs : List LLVMValue)
    (ih : ∀ v ∈ fs,
      (flattenAggregate v).length = (flattenAggregateType (typeOf v)).length) :
    (flattenAggregateList fs).length
      = (flattenAggregateTypeList (typeOfList fs)).length := by
  induction fs with
  | nil => rfl
  | cons v vs ihl =>
      simp only [flattenAggregateList, typeOfList, flattenAggregateTypeList,
        List.length_append]
      rw [ih v (by simp), ihl (fun w hw => ih w (by simp [hw]))]

/-- The flattening of a value has exactly as many entries as the flattening of
its type. -/
theorem flattenAggregate_length (v : LLVMValue) :
    (flattenAggregate v).length = (flattenAggregateType (typeOf v)).length := by
  induction v using LLVMValue.recMemValue with
  | helem tyId data => rfl
  | hundef => rfl
  | hnull => rfl
  | hstruct fields ih =>
      show (flattenAggregateList fields).length
        = (flattenAggregateType (.structT (typeOfList fields))).length
      simp only [flattenAggregateType]
      exact flattenAggregateList_length_aux fields ih

/-- Each member of a field list contributes at most the whole flattened
length. -/
theorem flattenAggregateTypeList_member_le (ts : List LLVMType) (t : LLVMType)
    (ht : t ∈ ts) :
    (flattenAggregateType t).length ≤ (flattenAggregateTypeList ts).length := by
  induction ts with
  | nil => cases ht
  | cons s ss ih =>
      simp only [flattenAggregateTypeList, List.length_append]
      rcases List.mem_cons.mp ht with h | h
      · subst h; omega
      · have := ih h; omega

theorem take_succ_set {α : Type} (a : α) :
    ∀ (acc : List α) (i : Nat), i < acc.length →
      (acc.set i a).take (i + 1) = acc.take i ++ [a]
  | [], i, h => by simp at h
  | x :: xs, 0, _ => by simp
  | x :: xs, i + 1, h => by
      simp only [List.set, List.take, List.take_succ_cons, List.cons_append]
      rw [take_succ_set a xs i (by simpa using h)]

/-- The loop of `collapseFormalParamInternal`: consuming the concatenated
flattenings of `fs` (then `rest`) from index `i` over accumulator `acc`
rebuilds `acc` with positions `i, i+1, …` replaced by the values of `fs`, and
leaves `rest` unconsumed. -/
theorem collapseStructFields_spec (fs : List LLVMValue) :
    ∀ (i : Nat) (acc : List LLVMValue) (rest : List LLVMValue),
      (∀ v ∈ fs, ∀ r,
        (flattenAggregateType (typeOf v)).length ≤ MaxFieldsPerParam →
        collapseFormalParamInternal (typeOf v) (flattenAggregate v ++ r)
          = some (v, r)) →
      (∀ v ∈ fs,
        (flattenAggregateType (typeOf v)).length ≤ MaxFieldsPerParam) →
      acc.length = i + fs.length →
      collapseStructFields (typeOfList fs) i (.structV acc)
          (flattenAggregateList fs ++ rest)
        = some (.structV (acc.take i ++ fs), rest) := by
  induction fs with
  | nil =>
      intro i acc rest _ _ hlen
      simp only [List.length_nil] at hlen
      simp only [typeOfList, flattenAggregateList, collapseStructFields,
        List.nil_append, List.append_nil]
      rw [List.take_of_length_le (by omega)]
  | cons v vs ih =>
      intro i acc rest hcoll hb hlen
      simp only [typeOfList, flattenAggregateList, collapseStructFields,
        List.append_assoc]
      rw [hcoll v (by simp) _ (hb v (by simp))]
      simp only [createInsertValue]
      rw [ih (i + 1) (acc.set i v) rest
        (fun w hw => hcoll w (by simp [hw]))
        (fun w hw => hb w (by simp [hw]))
        (by simp only [List.length_set]; simp only [List.length_cons] at hlen; omega)]
      rw [take_succ_set v acc i (by simp at hlen; omega)]
      simp

/-- Collapsing the flattening of a within-bound value (followed by any
remainder) rebuilds exactly that value and leaves the remainder. -/
theorem collapse_flatten (v : LLVMValue) :
    ∀ rest : List LLVMValue,
      (flattenAggregateType (typeOf v)).length ≤ MaxFieldsPerParam →
      collapseFormalParamInternal (typeOf v) (flattenAggregate v ++ rest)
        = some (v, rest) := by
  induction v using LLVMValue.recMemValue with
  | helem tyId data => intro rest _; rfl
  | hundef => intro rest _; rfl
  | hnull => intro rest _; rfl
  | hstruct fields ih =>
      intro rest hb
      have hb2 : (flattenAggregateType (typeOf (.structV fields))).length
          ≤ MaxFieldsPerParam := hb
      show collapseFormalParamInternal (.structT (typeOfList fields))
          (flattenAggregateList fields ++ rest)
        = some (.structV fields, rest)
      have hbmem : ∀ w ∈ fields,
          (flattenAggregateType (typeOf w)).length ≤ MaxFieldsPerParam := by
        intro w hw
        refine le_trans ?_ hb2
        show (flattenAggregateType (typeOf w)).length
          ≤ (flattenAggregateType (typeOf (.structV fields))).length
        have : typeOf w ∈ typeOfList fields := by
          clear hb hb2 ih
          induction fields with
          | nil => cases hw
          | cons x xs ihx =>
              rcases List.mem_cons.mp hw with h | h
              · subst h; simp [typeOfList]
              · simp [typeOfList]; right; exact ihx h
        calc (flattenAggregateType (typeOf w)).length
            ≤ (flattenAggregateTypeList (typeOfList fields)).length :=
              flattenAggregateTypeList_member_le _ _ this
          _ = (flattenAggregateType (typeOf (.structV fields))).length := rfl
      simp only [collapseFormalParamInternal]
      rw [if_pos (by exact_mod_cast hb2)]
      show collapseStructFields (typeOfList fields) 0
          (.structV (constNullList (typeOfList fields)))
          (flattenAggregateList fields ++ rest) = _
      rw [collapseStructFields_spec fields 0
        (constNullList (typeOfList fields)) rest
        (fun w hw r hwb => ih w hw r hwb) hbmem
        (by rw [constNullList_length, typeOfList_length]; omega)]
      simp

/-- How `expandFormalParam` behaves on a struct value, by bound. -/
theorem expandFormalParam_struct (fields : List LLVMValue) :
    ((flattenAggregateType (.structT (typeOfList fields))).length
        ≤ MaxFieldsPerParam →
      expandFormalParam (.structV fields)
        = some (flattenAggregate (.structV fields))) ∧
    (¬ (flattenAggregateType (.structT (typeOfList fields))).length
        ≤ MaxFieldsPerParam →
      expandFormalParam (.structV fields) = some [.structV fields]) := by
  have heq : (flattenAggregate (.structV fields)).length
      = (flattenAggregateType (.structT (typeOfList fields))).length :=
    flattenAggregate_length (.structV fields)
  have hshow : expandFormalParam (.structV fields)
      = if (flattenAggregateType (.structT (typeOfList fields))).length
            ≤ MaxFieldsPerParam then
          if (flattenAggregate (.structV fields)).length
              ≠ (flattenAggregateType (.structT (typeOfList fields))).length
          then none
          else some (flattenAggregate (.structV fields))
        else some [.structV fields] := rfl
  constructor
  · intro hb
    rw [hshow, if_pos hb, if_neg (by simp [heq])]
  · intro hb
    rw [hshow, if_neg hb]

/-- C1: for every well-typed value `v` of type `t`, collapsing the expansion
restores the original value: `collapseFormalParam t (expandFormalParam v)`
returns exactly `v` (and panics nowhere), at any nesting depth and for
flattened field counts both within and exceeding `MaxFieldsPerParam`
(over-bound structs and elementary values pass through unexpanded and are
consumed one-for-one). -/
theorem collapse_expand_roundtrip (v : LLVMValue) (t : LLVMType)
    (ht : typeOf v = t) :
    (expandFormalParam v).bind (fun fields => collapseFormalParam t fields)
      = some v := by
  subst ht
  cases v with
  | elem tyId data => rfl
  | undefPtr => rfl
  | nullPtr => rfl
  | structV fields =>
      by_cases hb : (flattenAggregateType (.structT (typeOfList fields))).length
          ≤ MaxFieldsPerParam
      · have hexp := (expandFormalParam_struct fields).1 hb
        have hcoll := collapse_flatten (.structV fields) [] hb
        rw [List.append_nil] at hcoll
        rw [hexp]
        show collapseFormalParam (typeOf (.structV fields))
            (flattenAggregate (.structV fields)) = some (.structV fields)
        simp only [collapseFormalParam]
        rw [show typeOf (.structV fields) = .structT (typeOfList fields) from rfl,
          show collapseFormalParamInternal (.structT (typeOfList fields))
            (flattenAggregate (.structV fields))
            = some (.structV fields, []) from hcoll]
        simp
      · have hexp := (expandFormalParam_struct fields).2 hb
        rw [hexp]
        show collapseFormalParam (typeOf (.structV fields)) [.structV fields]
            = some (.structV fields)
        simp only [collapseFormalParam]
        rw [show typeOf (.structV fields) = .structT (typeOfList fields) from rfl]
        simp only [collapseFormalParamInternal]
        rw [if_neg hb]
        simp

/-- Witness for C1 at a nested two-level struct within the bound. -/
theorem collapse_expand_roundtrip_witness :
    typeOf (.structV [.elem 1 5, .structV [.elem 2 6, .elem 3 7]])
      = .structT [.elementary 1, .structT [.elementary 2, .elementary 3]] ∧
    (expandFormalParam (.structV [.elem 1 5, .structV [.elem 2 6, .elem 3 7]])).bind
      (fun fields => collapseFormalParam
        (.structT [.elementary 1, .structT [.elementary 2, .elementary 3]]) fields)
      = some (.structV [.elem 1 5, .structV [.elem 2 6, .elem 3 7]]) :=
  ⟨rfl, collapse_expand_roundtrip _ _ rfl⟩

/-- C4: the number of values returned by `flattenAggregate` always equals the
number of types returned by `flattenAggregateType` on the value's type, so
the `"type and value param lowering don't match"` panic branch of
`expandFormalParam` (modelled as `none`) is unreachable for every input. -/
theorem expandFormalParam_never_panics (v : LLVMValue) :
    (flattenAggregate v).length = (flattenAggregateType (typeOf v)).length ∧
    expandFormalParam v ≠ none := by
  refine ⟨flattenAggregate_length v, ?_⟩
  cases v with
  | elem tyId data => simp [expandFormalParam, typeOf]
  | undefPtr => simp [expandFormalParam, typeOf, i8ptrType]
  | nullPtr => simp [expandFormalParam, typeOf, i8ptrType]
  | structV fields =>
      by_cases hb : (flattenAggregateType (.structT (typeOfList fields))).length
          ≤ MaxFieldsPerParam
      · rw [(expandFormalParam_struct fields).1 hb]; simp
      · rw [(expandFormalParam_struct fields).2 hb]; simp

/-- C6: a struct value whose type flattens to exactly `MaxFieldsPerParam = 3`
elementary fields is expanded into exactly those 3 values, while a struct
whose type flattens to 4 fields is returned as a single unexpanded aggregate
value. -/
theorem expandFormalParam_bound (v : LLVMValue) (ts : List LLVMType)
    (ht : typeOf v = .structT ts) :
    ((flattenAggregateType (.structT ts)).length = 3 →
      expandFormalParam v = some (flattenAggregate v) ∧
      (flattenAggregate v).length = 3) ∧
    ((flattenAggregateType (.structT ts)).length = 4 →
      expandFormalParam v = some [v]) := by
  cases v with
  | elem tyId data => simp [typeOf] at ht
  | undefPtr => simp [typeOf, i8ptrType] at ht
  | nullPtr => simp [typeOf, i8ptrType] at ht
  | structV fields =>
      have hts : typeOfList fields = ts := by
        have := ht
        simp only [typeOf, LLVMType.structT.injEq] at this
        exact this
      subst hts
      constructor
      · intro h3
        have hb : (flattenAggregateType (.structT (typeOfList fields))).length
            ≤ MaxFieldsPerParam := by unfold MaxFieldsPerParam; omega
        refine ⟨(expandFormalParam_struct fields).1 hb, ?_⟩
        rw [flattenAggregate_length (.structV fields)]
        exact h3
      · intro h4
        have hb : ¬ (flattenAggregateType (.structT (typeOfList fields))).length
            ≤ MaxFieldsPerParam := by unfold MaxFieldsPerParam; omega
        exact (expandFormalParam_struct fields).2 hb

/-- Witness for C6: a flat 3-field struct expands to its 3 fields; a flat
4-field struct stays a single aggregate. -/
theorem expandFormalParam_bound_witness :
    (expandFormalParam (.structV [.elem 1 0, .elem 2 1, .elem 3 2])
        = some (flattenAggregate (.structV [.elem 1 0, .elem 2 1, .elem 3 2])) ∧
      (flattenAggregate (.structV [.elem 1 0, .elem 2 1, .elem 3 2])).length = 3) ∧
    expandFormalParam (.structV [.elem 1 0, .elem 2 1, .elem 3 2, .elem 4 3])
      = some [.structV [.elem 1 0, .elem 2 1, .elem 3 2, .elem 4 3]] :=
  ⟨(expandFormalParam_bound
      (.structV [.elem 1 0, .elem 2 1, .elem 3 2])
      [.elementary 1, .elementary 2, .elementary 3] rfl).1 rfl,
   (expandFormalParam_bound
      (.structV [.elem 1 0, .elem 2 1, .elem 3 2, .elem 4 3])
      [.elementary 1, .elementary 2, .elementary 3, .elementary 4] rfl).2 rfl⟩

theorem leafPathsFields_length_aux (fs : List LLVMType) (i : Nat)
    (ih : ∀ t ∈ fs, (leafPaths t).length = (flattenAggregateType t).length) :
    (leafPathsFields fs i).length = (flattenAggregateTypeList fs).length := by
  induction fs generalizing i with
  | nil => rfl
  | cons t ts ihl =>
      simp only [leafPathsFields, flattenAggregateTypeList, List.length_append,
        List.length_map]
      rw [ih t (by simp), ihl (i + 1) (fun w hw => ih w (by simp [hw]))]

/-- One leaf path per flattened leaf type. -/
theorem leafPaths_length (t : LLVMType) :
    (leafPaths t).length = (flattenAggregateType t).length := by
  induction t using LLVMType.recMemType with
  | helem id => rfl
  | hstruct fields ih =>
      show (leafPathsFields fields 0).length
        = (flattenAggregateTypeList fields).length
      exact leafPathsFields_length_aux fields 0 ih

theorem flattenAggregateTypeOffsetsFields_eq (td : LLVMType → Nat → Nat)
    (ts : List LLVMType) :
    ∀ (fs : List LLVMType) (i : Nat), fs = ts.drop i →
      (∀ t ∈ fs, flattenAggregateTypeOffsets td t
        = (leafPaths t).map (pathOffset td t)) →
      flattenAggregateTypeOffsetsFields td (.structT ts) fs i
        = (leafPathsFields fs i).map (pathOffset td (.structT ts)) := by
  intro fs
  induction fs with
  | nil => intro i _ _; rfl
  | cons field fs ih =>
      intro i hdrop hmem
      have hget : ts.getD i (.elementary 0) = field := by
        have h0 : ts[i]? = some field := by
          have : (ts.drop i)[0]? = some field := by rw [← hdrop]; simp
          simpa using this
        simp [List.getD, h0]
      have hdrop2 : fs = ts.drop (i + 1) := by
        have := congrArg List.tail hdrop
        simpa [List.tail_drop] using this
      simp only [flattenAggregateTypeOffsetsFields, leafPathsFields,
        List.map_append, List.map_map]
      rw [ih (i + 1) hdrop2 (fun w hw => hmem w (by simp [hw]))]
      rw [hmem field (by simp), List.map_map]
      congr 1
      apply List.map_congr_left
      intro p hp
      show pathOffset td field p + td (.structT ts) i
        = pathOffset td (.structT ts) (i :: p)
      simp only [pathOffset, hget]
      omega

/-- C7: for every layout oracle and every type, the flattened-offsets
sequence has exactly the length of the flattened-types sequence, and each of
its entries is the sum of the byte offsets along the leaf's ancestor chain
(the leaf's own offset within its parent plus the offsets of all enclosing
aggregates). -/
theorem flattenAggregateTypeOffsets_spec (td : LLVMType → Nat → Nat)
    (t : LLVMType) :
    (flattenAggregateTypeOffsets td t).length
        = (flattenAggregateType t).length ∧
    flattenAggregateTypeOffsets td t
        = (leafPaths t).map (pathOffset td t) := by
  have hmain : ∀ s : LLVMType, flattenAggregateTypeOffsets td s
      = (leafPaths s).map (pathOffset td s) := by
    intro s
    induction s using LLVMType.recMemType with
    | helem id => rfl
    | hstruct fields ih =>
        show flattenAggregateTypeOffsetsFields td (.structT fields) fields 0
          = (leafPathsFields fields 0).map (pathOffset td (.structT fields))
        exact flattenAggregateTypeOffsetsFields_eq td fields fields 0 (by simp) ih
  refine ⟨?_, hmain t⟩
  rw [hmain t, List.length_map, leafPaths_length]

/-- Structural induction over `GoType` with a membership hypothesis for
struct fields. -/
theorem GoType.recMemGo {P : GoType → Prop}
    (hbasic : ∀ info, P (.basic info))
    (hpointer : P .pointer)
    (hstruct : ∀ fields, (∀ t ∈ fields, P t) → P (.structT fields))
    (harray : ∀ elem, P elem → P (.array elem))
    (hnamed : ∀ name u, P u → P (.named name u))
    (hinterface : P .interfaceT)
    (hother : P .otherT) :
    ∀ t, P t
  | .basic info => hbasic info
  | .pointer => hpointer
  | .structT fields =>
      hstruct fields (fun t ht =>
        GoType.recMemGo hbasic hpointer hstruct harray hnamed hinterface hother t)
  | .array elem =>
      harray elem
        (GoType.recMemGo hbasic hpointer hstruct harray hnamed hinterface hother elem)
  | .named name u =>
      hnamed name u
        (GoType.recMemGo hbasic hpointer hstruct harray hnamed hinterface hother u)
  | .interfaceT => hinterface
  | .otherT => hother
termination_by t => sizeOf t
decreasing_by
  · have h1 : sizeOf t < sizeOf fields := List.sizeOf_lt_of_mem ht
    simp only [GoType.structT.sizeOf_spec]
    omega
  · simp only [GoType.array.sizeOf_spec]; omega
  · simp only [GoType.named.sizeOf_spec]; omega

/-- `hashmapIsBinaryKey` is invariant under `Underlying()`. -/
theorem hashmapIsBinaryKey_underlying (t : GoType) :
    hashmapIsBinaryKey t.underlying = hashmapIsBinaryKey t := by
  cases t <;> simp [GoType.underlying, hashmapIsBinaryKey]

/-- The struct-field loop succeeds exactly when every field is a binary
key. -/
theorem hashmapIsBinaryKeyFields_iff (fs : List GoType) :
    hashmapIsBinaryKeyFields fs = true ↔ ∀ f ∈ fs, hashmapIsBinaryKey f = true := by
  induction fs with
  | nil => simp [hashmapIsBinaryKeyFields]
  | cons f fs ih =>
      simp only [hashmapIsBinaryKeyFields, Bool.and_eq_true, ih,
        hashmapIsBinaryKey_underlying, List.mem_cons]
      constructor
      · rintro ⟨h1, h2⟩ w (rfl | hw)
        · exact h1
        · exact h2 w hw
      · intro h
        exact ⟨h f (Or.inl rfl), fun w hw => h w (Or.inr hw)⟩

theorem containsDynamicFields_exists (fs : List GoType) :
    containsDynamicFields fs = true ↔ ∃ f ∈ fs, containsDynamic f = true := by
  induction fs with
  | nil => simp [containsDynamicFields]
  | cons f fs ih => simp [containsDynamicFields, ih]

/-- A type with a dynamic component is never a binary key. -/
theorem containsDynamic_not_binary (t : GoType)
    (hd : containsDynamic t = true) : hashmapIsBinaryKey t = false := by
  induction t using GoType.recMemGo with
  | hbasic info => simp [containsDynamic] at hd
  | hpointer => simp [containsDynamic] at hd
  | hstruct fields ih =>
      rw [show containsDynamic (.structT fields) = containsDynamicFields fields
        from rfl] at hd
      obtain ⟨f, hf, hfd⟩ := (containsDynamicFields_exists fields).mp hd
      rw [show hashmapIsBinaryKey (.structT fields)
        = hashmapIsBinaryKeyFields fields from by simp [hashmapIsBinaryKey]]
      rw [← Bool.not_eq_true]
      intro hall
      have := (hashmapIsBinaryKeyFields_iff fields).mp hall f hf
      rw [ih f hf hfd] at this
      cases this
  | harray elem ih =>
      rw [show containsDynamic (.array elem) = containsDynamic elem from rfl] at hd
      simp [hashmapIsBinaryKey, ih hd]
  | hnamed name u ih =>
      rw [show containsDynamic (.named name u) = containsDynamic u from rfl] at hd
      simp [hashmapIsBinaryKey, hashmapIsBinaryKey_underlying, ih hd]
  | hinterface => simp [hashmapIsBinaryKey]
  | hother => simp [hashmapIsBinaryKey]

/-- A type with a dynamic component is never the basic string type. -/
theorem containsDynamic_not_stringBasic (t : GoType)
    (hd : containsDynamic t = true) : isStringBasicKey t = false := by
  cases t <;> simp_all [containsDynamic, isStringBasicKey]

theorem hashmapIsBinaryKey_eq_spec_aux (fs : List GoType)
    (ih : ∀ f ∈ fs, hashmapIsBinaryKey f = specBinaryComparable f) :
    hashmapIsBinaryKeyFields fs = specBinaryComparableFields fs := by
  induction fs with
  | nil => simp [hashmapIsBinaryKeyFields, specBinaryComparableFields]
  | cons f fs ihl =>
      simp only [hashmapIsBinaryKeyFields, specBinaryComparableFields]
      rw [hashmapIsBinaryKey_underlying f, ih f (by simp),
        ihl (fun w hw => ih w (by simp [hw]))]

/-- `hashmapIsBinaryKey` computes exactly the claim-side binary-comparability
rules, on every type. -/
theorem hashmapIsBinaryKey_eq_spec (t : GoType) :
    hashmapIsBinaryKey t = specBinaryComparable t := by
  induction t using GoType.recMemGo with
  | hbasic info => cases info <;> simp [hashmapIsBinaryKey, specBinaryComparable]
  | hpointer => simp [hashmapIsBinaryKey, specBinaryComparable]
  | hstruct fields ih =>
      rw [show hashmapIsBinaryKey (.structT fields)
        = hashmapIsBinaryKeyFields fields from by simp [hashmapIsBinaryKey]]
      rw [show specBinaryComparable (.structT fields)
        = specBinaryComparableFields fields from by simp [specBinaryComparable]]
      exact hashmapIsBinaryKey_eq_spec_aux fields ih
  | harray elem ih => simp [hashmapIsBinaryKey, specBinaryComparable, ih]
  | hnamed name u ih =>
      rw [show hashmapIsBinaryKey (.named name u)
        = hashmapIsBinaryKey u.underlying from by simp [hashmapIsBinaryKey]]
      rw [hashmapIsBinaryKey_underlying u, ih]
      simp [specBinaryComparable]
  | hinterface => simp [hashmapIsBinaryKey, specBinaryComparable]
  | hother => simp [hashmapIsBinaryKey, specBinaryComparable]

/-- C5: the key classifier decides purely from type structure, and is
completely characterised: `hashmapIsBinaryKey` agrees with the claim-side
recursive rules on every type — the basic string type takes the string
class; booleans, integers and pointers are binary-comparable; a struct is
binary-comparable iff every field is, recursively; an array iff its element
type is; and every other type is unsupported — both in the sense that any
type that is neither binary-comparable nor the string type gets the
unsupported class (concretely: floats, interface types and other
non-elementary types), and that a type containing an interface
(dynamic-value) component at any nesting depth is unsupported. -/
theorem hashmapIsBinaryKey_spec :
    (∀ t : GoType, hashmapIsBinaryKey t = specBinaryComparable t) ∧
    (mapKeyClass (.basic .isString) = .stringKey) ∧
    (hashmapIsBinaryKey (.basic .isBoolean) = true ∧
      hashmapIsBinaryKey (.basic .isInteger) = true ∧
      hashmapIsBinaryKey .pointer = true) ∧
    (∀ fields : List GoType,
      hashmapIsBinaryKey (.structT fields) = true ↔
        ∀ f ∈ fields, hashmapIsBinaryKey f = true) ∧
    (∀ elem : GoType,
      hashmapIsBinaryKey (.array elem) = hashmapIsBinaryKey elem) ∧
    (∀ t : GoType, specBinaryComparable t = false → isStringBasicKey t = false →
      mapKeyClass t = .unsupportedKey) ∧
    (mapKeyClass (.basic .otherInfo) = .unsupportedKey ∧
      mapKeyClass .interfaceT = .unsupportedKey ∧
      mapKeyClass .otherT = .unsupportedKey) ∧
    (∀ t : GoType, containsDynamic t = true → mapKeyClass t = .unsupportedKey) := by
  refine ⟨hashmapIsBinaryKey_eq_spec, ?_, ⟨?_, ?_, ?_⟩, ?_, ?_, ?_, ⟨?_, ?_, ?_⟩, ?_⟩
  · simp [mapKeyClass, isStringBasicKey]
  · simp [hashmapIsBinaryKey]
  · simp [hashmapIsBinaryKey]
  · simp [hashmapIsBinaryKey]
  · intro fields
    rw [show hashmapIsBinaryKey (.structT fields)
      = hashmapIsBinaryKeyFields fields from by simp [hashmapIsBinaryKey]]
    exact hashmapIsBinaryKeyFields_iff fields
  · intro elem; simp [hashmapIsBinaryKey]
  · intro t hsb hss
    simp [mapKeyClass, hss, hashmapIsBinaryKey_eq_spec t, hsb]
  · simp [mapKeyClass, isStringBasicKey, hashmapIsBinaryKey]
  · simp [mapKeyClass, isStringBasicKey, hashmapIsBinaryKey]
  · simp [mapKeyClass, isStringBasicKey, hashmapIsBinaryKey]
  · intro t hd
    simp [mapKeyClass, containsDynamic_not_binary t hd,
      containsDynamic_not_stringBasic t hd]

/-- Witness for C5: a float key (neither binary-comparable nor a string) is
unsupported, and so is a doubly nested struct containing an interface
field. -/
theorem hashmapIsBinaryKey_spec_witness :
    (specBinaryComparable (.basic .otherInfo) = false ∧
      isStringBasicKey (.basic .otherInfo) = false ∧
      mapKeyClass (.basic .otherInfo) = .unsupportedKey) ∧
    (containsDynamic (.structT [.basic .isInteger, .structT [.interfaceT]]) = true ∧
      mapKeyClass (.structT [.basic .isInteger, .structT [.interfaceT]])
        = .unsupportedKey) :=
  ⟨⟨by simp [specBinaryComparable], rfl,
    hashmapIsBinaryKey_spec.2.2.2.2.2.1 (.basic .otherInfo)
      (by simp [specBinaryComparable]) rfl⟩,
   ⟨by simp [containsDynamic, containsDynamicFields],
    hashmapIsBinaryKey_spec.2.2.2.2.2.2.2
      (.structT [.basic .isInteger, .structT [.interfaceT]])
      (by simp [containsDynamic, containsDynamicFields])⟩⟩

/-- C3 counterexample: for a named type whose underlying type is a string,
`createMapUpdate` and `createMapDelete` take the string lowering path, but
`createMapLookup` — which inspects the key type without first resolving
`Underlying()` — takes the unsupported path and returns the error. -/
theorem mapOps_named_string_counterexample :
    createMapUpdate (.named "S" (.basic .isString)) 0
      = (["hashmapStringSet"], []) ∧
    createMapDelete (.named "S" (.basic .isString)) 0
      = .ok ["hashmapStringDelete"] ∧
    createMapLookup (.named "S" (.basic .isString)) 0
      = .error ⟨0, hashmapKeyErrorMessage (.named "S" (.basic .isString))⟩ ∧
    lookupKeyClass (.named "S" (.basic .isString)) = .unsupportedKey ∧
    updateKeyClass (.named "S" (.basic .isString)) = .stringKey := by
  refine ⟨?_, ?_, ?_, ?_, ?_⟩ <;>
    simp [createMapUpdate, createMapDelete, createMapLookup, lookupKeyClass,
      updateKeyClass, mapKeyClass, GoType.underlying, isStringBasicKey,
      hashmapIsBinaryKey]

/-- C3 amended: `createMapUpdate` and `createMapDelete` resolve the same key
class for every key type, and `createMapLookup` resolves the same class
whenever the key type is its own underlying type; but a named type whose
underlying type is a string takes the string path only in update and delete —
lookup classifies it as unsupported. -/
theorem mapOps_keyClass_amended :
    (∀ t : GoType, updateKeyClass t = deleteKeyClass t) ∧
    (∀ t : GoType, t.underlying = t → lookupKeyClass t = updateKeyClass t) ∧
    (∀ name : String,
      lookupKeyClass (.named name (.basic .isString)) = .unsupportedKey ∧
      updateKeyClass (.named name (.basic .isString)) = .stringKey) := by
  refine ⟨fun t => rfl, ?_, ?_⟩
  · intro t ht
    show mapKeyClass t = mapKeyClass t.underlying
    rw [ht]
  · intro name
    constructor <;>
      simp [lookupKeyClass, updateKeyClass, mapKeyClass, GoType.underlying,
        isStringBasicKey, hashmapIsBinaryKey]

/-- Witness for C3 (amended) at the basic integer type, its own underlying
type. -/
theorem mapOps_keyClass_amended_witness :
    (GoType.basic .isInteger).underlying = .basic .isInteger ∧
    lookupKeyClass (.basic .isInteger) = updateKeyClass (.basic .isInteger) :=
  ⟨rfl, mapOps_keyClass_amended.2.1 (.basic .isInteger) rfl⟩

/-- C8: when the underlying map key type is unsupported, `createMapUpdate`
records the unsupported-key diagnostic through the error aggregator and
returns normally (an ordinary pair — lowering continues), while
`createMapDelete` returns the identically worded diagnostic immediately as an
error value. -/
theorem mapUpdateDelete_unsupported (keyType : GoType) (pos : Nat)
    (hs : isStringBasicKey keyType.underlying = false)
    (hb : hashmapIsBinaryKey keyType.underlying = false) :
    createMapUpdate keyType pos
      = ([], [⟨pos, hashmapKeyErrorMessage keyType.underlying⟩]) ∧
    createMapDelete keyType pos
      = .error ⟨pos, hashmapKeyErrorMessage keyType.underlying⟩ := by
  constructor <;> simp [createMapUpdate, createMapDelete, hs, hb]

/-- Witness for C8 at an unsupported key type (a non-basic, non-binary
type such as a slice). -/
theorem mapUpdateDelete_unsupported_witness :
    isStringBasicKey (GoType.otherT).underlying = false ∧
    hashmapIsBinaryKey (GoType.otherT).underlying = false ∧
    (createMapUpdate .otherT 7
        = ([], [⟨7, hashmapKeyErrorMessage (GoType.otherT).underlying⟩]) ∧
      createMapDelete .otherT 7
        = .error ⟨7, hashmapKeyErrorMessage (GoType.otherT).underlying⟩) :=
  ⟨rfl, by simp [GoType.underlying, hashmapIsBinaryKey],
   mapUpdateDelete_unsupported .otherT 7 rfl
     (by simp [GoType.underlying, hashmapIsBinaryKey])⟩

/-- C2 counterexample: for an exported runtime function,
`(*Compiler).createRuntimeCall` passes the caller's arguments through
unchanged — the two implicit trailing arguments are not appended, so the
claim "every runtime-support call … receives exactly two implicit trailing
arguments … for every runtime function name" fails on this code path. -/
theorem createRuntimeCall_exported_counterexample :
    Compiler.createRuntimeCallArgs exportedEnv "alloc" [] = some [] ∧
    ([] : List LLVMValue) ≠ [] ++ [LLVMValue.undefPtr, LLVMValue.nullPtr] := by
  constructor
  · rfl
  · simp

/-- C2 amended: every runtime call emitted through the `builder` variant of
`createRuntimeCall` receives exactly the two implicit trailing arguments — an
undef context pointer then a null coroutine-handle pointer — appended after
the caller's arguments; the `Compiler` variant appends them exactly when the
runtime function is not exported, and passes the arguments unchanged when it
is exported. -/
theorem createRuntimeCall_appends_implicit_args (env : RuntimeEnv)
    (fnName : String) (args res : List LLVMValue) :
    (builder.createRuntimeCallArgs env fnName args = some res →
      res = args ++ [LLVMValue.undefPtr, LLVMValue.nullPtr]) ∧
    (Compiler.createRuntimeCallArgs env fnName args = some res →
      (env.isExported fnName = false →
        res = args ++ [LLVMValue.undefPtr, LLVMValue.nullPtr]) ∧
      (env.isExported fnName = true → res = args)) := by
  constructor
  · intro h
    simp only [builder.createRuntimeCallArgs] at h
    by_cases hnil : env.namedFunctionIsNil fnName
    · simp [hnil] at h
    · simp [hnil] at h
      simp [← h]
  · intro h
    simp only [Compiler.createRuntimeCallArgs] at h
    by_cases hmem : env.hasMember fnName
    · by_cases hfnil : env.llvmFnIsNil fnName
      · simp [hmem, hfnil] at h
      · by_cases hexp : env.isExported fnName
        · simp [hmem, hfnil, hexp] at h
          constructor
          · intro hfalse; rw [hexp] at hfalse; cases hfalse
          · intro _; exact h.symm
        · simp [hmem, hfnil, hexp] at h
          constructor
          · intro _; simp [← h]
          · intro htrue
            rw [Bool.not_eq_true] at hexp
            rw [hexp] at htrue; cases htrue
    · simp [hmem] at h

/-- Witness for C2 (amended): with a non-exported runtime function both
variants append exactly the undef context and the null coroutine handle. -/
theorem createRuntimeCall_appends_implicit_args_witness :
    builder.createRuntimeCallArgs
        ⟨fun _ => true, fun _ => false, fun _ => false, fun _ => false⟩
        "alloc" [LLVMValue.elem 1 9]
      = some [LLVMValue.elem 1 9, LLVMValue.undefPtr, LLVMValue.nullPtr] ∧
    ([LLVMValue.elem 1 9, LLVMValue.undefPtr, LLVMValue.nullPtr]
      = [LLVMValue.elem 1 9] ++ [LLVMValue.undefPtr, LLVMValue.nullPtr]) :=
  ⟨rfl,
   (createRuntimeCall_appends_implicit_args
      ⟨fun _ => true, fun _ => false, fun _ => false, fun _ => false⟩
      "alloc" [LLVMValue.elem 1 9]
      [LLVMValue.elem 1 9, LLVMValue.undefPtr, LLVMValue.nullPtr]).1 rfl⟩

/-- C9: `newMultiError` on a single error returns that error itself, not
wrapped; on more than one error it returns a `MultiError` holding exactly the
given errors in order, whose `Error()` string is the first error's message;
and on an empty list it panics. -/
theorem newMultiError_spec :
    (newMultiError [] = none) ∧
    (∀ e : GoError, newMultiError [e] = some e) ∧
    (∀ errs : List GoError, 1 < errs.length →
      newMultiError errs = some (GoError.multi errs)) ∧
    (∀ (e : GoError) (es : List GoError),
      (GoError.multi (e :: es)).message = e.message) := by
  refine ⟨rfl, fun e => rfl, ?_, fun e es => rfl⟩
  intro errs h
  simp only [newMultiError, if_pos h]

/-- Witness for C9 at a concrete two-error list. -/
theorem newMultiError_spec_witness :
    1 < ([GoError.simple "first", GoError.simple "second"] : List GoError).length ∧
    newMultiError [GoError.simple "first", GoError.simple "second"]
      = some (GoError.multi [GoError.simple "first", GoError.simple "second"]) ∧
    (GoError.multi [GoError.simple "first", GoError.simple "second"]).message
      = some "first" :=
  ⟨by simp,
   newMultiError_spec.2.2.1 [GoError.simple "first", GoError.simple "second"]
     (by simp),
   rfl⟩

/-- C10: the top hash is never zero — it is the top byte of the 32-bit hash,
except that a top byte of `0x00` is mapped to `0x01`. -/
theorem hashmapTopHash_spec (hash : Nat) :
    hashmapTopHash hash ≠ 0 ∧
    (((hash % 2 ^ 32) >>> 24) % 2 ^ 8 ≠ 0 →
      hashmapTopHash hash = ((hash % 2 ^ 32) >>> 24) % 2 ^ 8) ∧
    (((hash % 2 ^ 32) >>> 24) % 2 ^ 8 = 0 → hashmapTopHash hash = 1) := by
  have ht : hashmapTopHash hash
      = if ((hash % 2 ^ 32) >>> 24) % 2 ^ 8 < 1 then
          ((hash % 2 ^ 32) >>> 24) % 2 ^ 8 + 1
        else
          ((hash % 2 ^ 32) >>> 24) % 2 ^ 8 := rfl
  rw [ht]
  generalize ((hash % 2 ^ 32) >>> 24) % 2 ^ 8 = t
  refine ⟨?_, ?_, ?_⟩
  · split <;> omega
  · intro h
    rw [if_neg (by omega)]
  · intro h
    rw [if_pos (by omega), h]

/-- Witness for C10: a hash with top byte `0x00` maps to `0x01`, and one with
top byte `0xAB` keeps it. -/
theorem hashmapTopHash_spec_witness :
    (((0x00123456 % 2 ^ 32) >>> 24) % 2 ^ 8 = 0 ∧ hashmapTopHash 0x00123456 = 1) ∧
    (((0xAB123456 % 2 ^ 32) >>> 24) % 2 ^ 8 ≠ 0 ∧
      hashmapTopHash 0xAB123456 = ((0xAB123456 % 2 ^ 32) >>> 24) % 2 ^ 8) :=
  ⟨⟨by decide, (hashmapTopHash_spec 0x00123456).2.2 (by decide)⟩,
   ⟨by decide, (hashmapTopHash_spec 0xAB123456).2.1 (by decide)⟩⟩

end TinyGo
